import Mathlib

/-!
Verification of the tera module-interpretation engine (frontend runtime):
the workflow state machine (`ui/src/modules/WorkflowEngine.ts`), the screen
page's workflow-state derivation (`ui/src/pages/ModuleScreenPage.tsx`), the
expression evaluation and form validation of the generic renderers
(`ui/src/modules/components/DetailRenderer.tsx`, `FormRenderer`), the action
dispatcher (`ui/src/modules/ActionHandler.ts`) and the declarative route
matching (`matchScreenPath` in `ModuleScreenPage.tsx`).

The TypeScript sources are embedded shallowly: JavaScript objects become
association lists (`Object.entries` order is insertion order), optional
properties become `Option`, and the JavaScript values that flow through the
renderers are modelled by the inductive `Tera.JSValue`, whose arithmetic
follows JavaScript coercion on the integer fragment exercised by the module
configurations (numbers, `undefined`, `null`, booleans, strings; a missing
operand coerces to NaN).
-/

namespace Tera

/-- JavaScript runtime values as the renderers handle them: numbers (the
integer fragment; `nan` is the distinguished result of failed numeric
coercion), `undefined` for absent record fields, `null`, booleans and
strings. -/
inductive JSValue where
  | num (n : Int)
  | nan
  | undefined
  | null
  | bool (b : Bool)
  | str (s : String)
deriving DecidableEq, Repr

/-- A JavaScript object as the renderers use one: an association list in
property-insertion order (`Object.entries` iterates it in this order). -/
abbrev JSRecord := List (String × JSValue)

/-- Property read `obj[key]`: the first entry with the key, `undefined` when
the object has none. -/
def getField (r : JSRecord) (k : String) : JSValue :=
  (r.lookup k).getD .undefined

/-- Spread update `\x7b ...obj, [key]: value \x7d`: an existing key keeps its
position and takes the new value, a new key is appended. -/
def setField (r : JSRecord) (k : String) (v : JSValue) : JSRecord :=
  match r with
  | [] => [(k, v)]
  | (k', v') :: rest =>
      if k' = k then (k', v) :: rest else (k', v') :: setField rest k v

/-- JavaScript truthiness of the values in the model. -/
def jsTruthy : JSValue → Bool
  | .num n => n ≠ 0
  | .nan => false
  | .undefined => false
  | .null => false
  | .bool b => b
  | .str s => s ≠ ""

/-- `ToNumber` on the model's values: `none` stands for NaN. Strings follow
the integer fragment (the empty string is 0, an integer literal is its value,
anything else is NaN). -/
def toNum : JSValue → Option Int
  | .num n => some n
  | .nan => none
  | .undefined => none
  | .null => some 0
  | .bool b => some (if b then 1 else 0)
  | .str s => if s = "" then some 0 else s.toInt?

/-- JavaScript `*`: both operands coerced with `ToNumber`; NaN propagates. -/
def jsMul (a b : JSValue) : JSValue :=
  match toNum a, toNum b with
  | some x, some y => .num (x * y)
  | _, _ => .nan

/-! ## Expression evaluation (DetailRenderer.tsx)

`evaluateCondition` and `evaluateFormula` compile the raw configuration
string with `new Function('data', 'return ' + expression)` and call the
result on the record. The compiled function is full JavaScript: besides the
`data` parameter it closes over the global object, so an expression can read
(and call) anything in scope — `JSExpr.global` embeds exactly that access.
The fragment embedded here (literals, `data.field`, global reads,
multiplication) is the part the claims exercise; nothing in it throws, so
the `try/catch` of the source (conditions fall back to `false`, formulas to
`null`) stays unexercised. -/

/-- The JavaScript expressions the configuration strings compile to. -/
inductive JSExpr where
  | lit (v : JSValue)
  | field (name : String)
  | global (name : String)
  | mul (a b : JSExpr)
deriving DecidableEq, Repr

/-- Evaluation of a compiled expression: `data` is the record passed in,
`globals` the global object the `new Function` closure can reach. -/
def evalExpr (globals data : JSRecord) : JSExpr → JSValue
  | .lit v => v
  | .field n => getField data n
  | .global n => getField globals n
  | .mul a b => jsMul (evalExpr globals data a) (evalExpr globals data b)

/-- `evaluateCondition(expression, data)`: the compiled expression's value,
used as a boolean. -/
def evaluateCondition (globals data : JSRecord) (e : JSExpr) : Bool :=
  jsTruthy (evalExpr globals data e)

/-- `evaluateFormula(expression, data)`: the compiled expression's value. -/
def evaluateFormula (globals data : JSRecord) (e : JSExpr) : JSValue :=
  evalExpr globals data e

/-! ## Workflow data model (ui/src/modules/types.ts) -/

/-- `WorkflowState` of types.ts. -/
structure WorkflowState where
  label : String
  color : Option String := none
  can_transition_to : List String
  allow_edit : Bool
  allow_delete : Bool
deriving DecidableEq, Repr

/-- `WorkflowTransition` of types.ts; the source field `from` is a Lean
keyword and is embedded as `fromState`; likewise `to` as `toState`. -/
structure WorkflowTransition where
  fromState : String
  toState : String
  label : String
  action : String
  confirm_message : Option String := none
  disabled_if : Option JSExpr := none
  permissions : Option (List String) := none
deriving DecidableEq, Repr

/-- `WorkflowConfig` of types.ts; `states` and `transitions` are objects,
kept in insertion order. -/
structure WorkflowConfig where
  title : String
  initial_state : String
  states : List (String × WorkflowState)
  transitions : Option (List (String × WorkflowTransition)) := none
deriving DecidableEq, Repr

/-! ## WorkflowEngine (ui/src/modules/WorkflowEngine.ts)

The class holds `config`, a private mutable `currentState` and a private
mutable `stateHistory`; methods that assign to them are embedded as
functions returning the updated engine value. -/

structure WorkflowEngine where
  config : WorkflowConfig
  currentState : String
  stateHistory : List String
deriving DecidableEq, Repr

/-- The constructor: `currentState = config.initial_state`, pushed onto the
fresh history. It takes no record state: the engine always starts at
`initial_state`. -/
def WorkflowEngine.fromConfig (config : WorkflowConfig) : WorkflowEngine :=
  { config := config
    currentState := config.initial_state
    stateHistory := [config.initial_state] }

/-- `this.config.transitions?.[transitionKey]`. -/
def WorkflowEngine.findTransition (e : WorkflowEngine) (key : String) :
    Option WorkflowTransition :=
  (e.config.transitions.getD []).lookup key

/-- `canTransition`: the named transition exists and its `from` equals the
current state. No other check is made. -/
def WorkflowEngine.canTransition (e : WorkflowEngine) (key : String) : Bool :=
  match e.findTransition key with
  | none => false
  | some t => t.fromState == e.currentState

/-- `getAvailableTransitions`: the transition entries whose `from` equals
the current state. -/
def WorkflowEngine.getAvailableTransitions (e : WorkflowEngine) :
    List (String × WorkflowTransition) :=
  (e.config.transitions.getD []).filter fun p => p.2.fromState == e.currentState

/-- `transition`: on the `canTransition` check passing, assigns `to` to
`currentState`, pushes it on `stateHistory` and returns `true`; otherwise
returns `false` leaving the fields alone. -/
def WorkflowEngine.transition (e : WorkflowEngine) (key : String) :
    Bool × WorkflowEngine :=
  match e.findTransition key with
  | none => (false, e)
  | some t =>
      if e.canTransition key then
        (true, { e with currentState := t.toState
                        stateHistory := e.stateHistory ++ [t.toState] })
      else (false, e)

/-- `canEdit`: `this.config.states[this.currentState]?.allow_edit ?? false`. -/
def WorkflowEngine.canEdit (e : WorkflowEngine) : Bool :=
  ((e.config.states.lookup e.currentState).map (·.allow_edit)).getD false

/-- `canDelete`: `this.config.states[this.currentState]?.allow_delete ?? false`. -/
def WorkflowEngine.canDelete (e : WorkflowEngine) : Bool :=
  ((e.config.states.lookup e.currentState).map (·.allow_delete)).getD false

/-- `getHistory` (it returns a copy of the array). -/
def WorkflowEngine.getHistory (e : WorkflowEngine) : List String :=
  e.stateHistory

/-! ## Workflow state derivation in ModuleScreenPage.tsx -/

/-- `detailData?.status || currentWorkflow.initial_state` (line 184), for a
page whose module declares a workflow: an absent or empty `status` falls
back to the workflow's `initial_state`. -/
def currentWorkflowState (detailStatus : Option String) (wf : WorkflowConfig) :
    String :=
  match detailStatus with
  | some s => if s = "" then wf.initial_state else s
  | none => wf.initial_state

/-- `currentWorkflow.states[currentWorkflowState]?.allow_edit ?? true`
(line 186), for a page whose module declares a workflow. -/
def canEditBasedOnWorkflow (wf : WorkflowConfig) (cur : String) : Bool :=
  ((wf.states.lookup cur).map (·.allow_edit)).getD true

/-- The `workflowState` prop handed to `DetailRenderer` (line 467):
`detailData?.status || "draft"`. -/
def detailWorkflowStateProp (detailStatus : Option String) : String :=
  match detailStatus with
  | some s => if s = "" then "draft" else s
  | none => "draft"

/-! ## The spec's draft/approved example workflow

States `draft` (`allow_edit: true`) and `approved` (`allow_edit: false`),
one transition `submit: draft → approved` demanding permission `approve`. -/

def draftState : WorkflowState :=
  { label := "Draft"
    can_transition_to := ["approved"]
    allow_edit := true
    allow_delete := true }

def approvedState : WorkflowState :=
  { label := "Approved"
    can_transition_to := []
    allow_edit := false
    allow_delete := false }

def submitTransition : WorkflowTransition :=
  { fromState := "draft"
    toState := "approved"
    label := "Submit"
    action := "example.submit"
    permissions := some ["approve"] }

def exampleWorkflow : WorkflowConfig :=
  { title := "Example"
    initial_state := "draft"
    states := [("draft", draftState), ("approved", approvedState)]
    transitions := some [("submit", submitTransition)] }

/-! ## Route matching (matchScreenPath in ModuleScreenPage.tsx)

The source normalizes both paths by removing one trailing slash, escapes
the template by prefixing a backslash to each character of the class
`- / \\ ^ $ + ? . ( ) | [ ] \x7b \x7d` — every regex metacharacter except
`*` — rewrites each escaped `\x7bid\x7d` into the
capture group `([^/]+)` and matches the current path against the anchored
regex `^...$`. The compiled pattern is therefore a sequence of literal
characters and capture groups, except that a `*` carried by the template
survives as a live quantifier: `c*` repeats the preceding literal zero or
more times, `\x7bid\x7d*` repeats the capture group (the capture is the
last iteration's segment, absent when zero iterations run), and a `*`
with nothing to repeat — at the start of the template or right after
another `*` — makes the RegExp constructor throw a SyntaxError, which
escapes `matchScreenPath` (it has no catch) and aborts the resolution
loop. `compileTemplate` embeds exactly this pipeline and `runMatch` the
anchored match, greedy with backtracking as the regex engine runs it. -/

/-- One item of the compiled route pattern. -/
inductive RouteAtom where
  | lit (c : Char)
  | group
  | starLit (c : Char)
  | starGroup
deriving DecidableEq, Repr

/-- The scan the two `replace` passes amount to: `\x7bid\x7d` becomes the
capture group, a `*` quantifies the preceding literal or group, every
other character is (escaped, hence) literal; `none` records the RegExp
constructor throwing when a `*` has nothing to repeat. -/
def compileAux : List Char → List RouteAtom → Option (List RouteAtom)
  | [], acc => some acc.reverse
  | '\x7b' :: 'i' :: 'd' :: '\x7d' :: rest, acc =>
      compileAux rest (.group :: acc)
  | '*' :: rest, acc =>
      match acc with
      | .lit c :: acc' => compileAux rest (.starLit c :: acc')
      | .group :: acc' => compileAux rest (.starGroup :: acc')
      | _ => none
  | c :: rest, acc => compileAux rest (.lit c :: acc)
termination_by tpl _ => tpl.length

def compileTemplate (tpl : List Char) : Option (List RouteAtom) :=
  compileAux tpl []

/-- Where the backtracking match stands inside the current atom: between
atoms, inside a group's segment, at a starred group's loop boundary
(holding the last completed iteration), or inside one of its
iterations. -/
inductive MatchState where
  | plain
  | inGroup (seg : List Char)
  | starLoop (lastCap : Option (List Char))
  | inStarChunk (seg : List Char)
deriving DecidableEq, Repr

/-- The anchored match of the compiled atoms against the remaining path,
greedy with backtracking exactly as the source's regex executes: a
quantifier prefers one more repetition and a group segment one more
character, falling back only when the rest fails. The result is the
capture list in group order — `none` for a starred group whose chosen
match ran zero iterations (its `m[i]` is `undefined`). Group segments are
accumulated in reverse. -/
def runMatch : List RouteAtom → MatchState → List Char →
    Option (List (Option (List Char)))
  | [], .plain, [] => some []
  | [], .plain, _ :: _ => none
  | .lit _ :: _, .plain, [] => none
  | .lit c :: ts, .plain, p :: ps =>
      if c = p then runMatch ts .plain ps else none
  | .starLit _ :: ts, .plain, [] => runMatch ts .plain []
  | .starLit c :: ts, .plain, p :: ps =>
      if c = p then
        match runMatch (.starLit c :: ts) .plain ps with
        | some r => some r
        | none => runMatch ts .plain (p :: ps)
      else runMatch ts .plain (p :: ps)
  | .group :: ts, .plain, path => runMatch ts (.inGroup []) path
  | .starGroup :: ts, .plain, path => runMatch ts (.starLoop none) path
  | ts, .inGroup seg, [] =>
      if seg = [] then none
      else (runMatch ts .plain []).map (some seg.reverse :: ·)
  | ts, .inGroup seg, c :: ps =>
      if c = '/' then
        if seg = [] then none
        else (runMatch ts .plain (c :: ps)).map (some seg.reverse :: ·)
      else
        match runMatch ts (.inGroup (c :: seg)) ps with
        | some r => some r
        | none =>
            if seg = [] then none
            else (runMatch ts .plain (c :: ps)).map (some seg.reverse :: ·)
  | ts, .starLoop lastCap, [] =>
      (runMatch ts .plain []).map (lastCap.map List.reverse :: ·)
  | ts, .starLoop lastCap, c :: ps =>
      if c = '/' then
        (runMatch ts .plain (c :: ps)).map (lastCap.map List.reverse :: ·)
      else
        match runMatch ts (.inStarChunk [c]) ps with
        | some r => some r
        | none =>
            (runMatch ts .plain (c :: ps)).map (lastCap.map List.reverse :: ·)
  | ts, .inStarChunk seg, [] => runMatch ts (.starLoop (some seg)) []
  | ts, .inStarChunk seg, c :: ps =>
      if c = '/' then runMatch ts (.starLoop (some seg)) (c :: ps)
      else
        match runMatch ts (.inStarChunk (c :: seg)) ps with
        | some r => some r
        | none => runMatch ts (.starLoop (some seg)) (c :: ps)
termination_by atoms state path =>
  (path.length, atoms.length,
    match state with
    | .plain => 0
    | .inGroup _ => 1
    | .starLoop _ => 2
    | .inStarChunk _ => 3)

/-- `path.replace(/\/$/, "")`: one trailing slash removed. -/
def stripTrailingSlash (s : List Char) : List Char :=
  if s.getLast? = some '/' then s.dropLast else s

/-- How one `matchScreenPath` call can end: the RegExp constructor
throwing (a `*` with nothing to repeat), the source's `null`, or a match
carrying `recordId` = `m[1] || undefined` — the first capture group's
text, absent when there is no group or the starred first group ran zero
iterations. -/
inductive MatchOutcome where
  | thrown
  | noMatch
  | matched (recordId : Option String)
deriving DecidableEq, Repr

/-- `matchScreenPath(screenPath, currentPath)`. An empty (falsy) template
returns `null` before any regex is built. -/
def matchScreenPath (screenPath currentPath : String) : MatchOutcome :=
  if screenPath = "" then .noMatch
  else
    match compileTemplate (stripTrailingSlash screenPath.data) with
    | none => .thrown
    | some atoms =>
        match runMatch atoms .plain (stripTrailingSlash currentPath.data) with
        | none => .noMatch
        | some caps =>
            .matched
              (match caps.head? with
               | none => none
               | some none => none
               | some (some g) => if g = [] then none else some (String.mk g))

/-- How the screen-resolution loop of ModuleScreenPage.tsx ends: an
exception escaping the loop (a template's regex failed to construct
before any screen matched — caught only by the page-level handler, which
abandons resolution), no screen matching, or the first matching screen in
declaration (insertion) order with its `recordId`. -/
inductive ResolveOutcome where
  | thrown
  | notFound
  | resolved (screenId : String) (recordId : Option String)
deriving DecidableEq, Repr

def resolveScreen : List (String × String) → String → ResolveOutcome
  | [], _ => .notFound
  | (key, path) :: rest, cur =>
      match matchScreenPath path cur with
      | .thrown => .thrown
      | .noMatch => resolveScreen rest cur
      | .matched rid => .resolved key rid

/-! ## Action dispatch (ui/src/modules/ActionHandler.ts)

The HTTP transport is a parameter: `executeApiAction` computes the request
it issues (URL after `\x7bid\x7d` substitution, method, JSON body for
non-GET, bearer token when one is stored) and classifies the transport's
response. The request actually issued is returned beside the result so the
theorems can speak about it. -/

/-- `ActionConfig` of types.ts. -/
structure ActionConfig where
  type : String
  method : Option String := none
  endpoint : Option String := none
  handler : Option String := none
  success_message : Option String := none
  error_message : Option String := none
  on_success : Option (List (List (String × String))) := none
deriving DecidableEq, Repr

structure HttpRequest where
  url : String
  method : String
  body : Option String
  auth : Option String
deriving DecidableEq, Repr

/-- What `executeApiAction` reads off a response: `ok`, `status`, the
`detail` property of the error body when it parses, and the success body. -/
structure HttpResponse where
  ok : Bool
  status : Nat
  errorDetail : Option String := none
  bodyData : Option String := none
deriving DecidableEq, Repr

/-- `ActionResult` of ActionHandler.ts. -/
structure ActionResult where
  success : Bool
  message : String
  data : Option String := none
  redirect_to : Option String := none
deriving DecidableEq, Repr

/-- JavaScript `a || b` on an optional string: `undefined` and `""` fall
through. -/
def orFalsy (a : Option String) (b : String) : String :=
  match a with
  | some s => if s = "" then b else s
  | none => b

/-- `!x` for an optional string property. -/
def isFalsyStr (a : Option String) : Bool :=
  match a with
  | some s => s = ""
  | none => true

/-- `s.replace(pat, repl)` with a string pattern: only the first occurrence
is replaced. -/
def replaceFirstAux (pat repl : List Char) : List Char → List Char
  | [] => []
  | c :: rest =>
      if pat.isPrefixOf (c :: rest) then repl ++ (c :: rest).drop pat.length
      else c :: replaceFirstAux pat repl rest

def jsReplaceOnce (s pat repl : String) : String :=
  String.mk (replaceFirstAux pat.data repl.data s.data)

/-- The endpoint computation of `executeApiAction`:
`if (context.recordId) endpoint = endpoint.replace('\x7bid\x7d', ...)`. A
missing (or falsy) `recordId` leaves the template untouched — there is no
missing-record check. -/
def substApiEndpoint (endpoint : String) (recordId : Option String) : String :=
  match recordId with
  | some rid => if rid = "" then endpoint else jsReplaceOnce endpoint "{id}" rid
  | none => endpoint

/-- `resolveRedirect(on_success)`: the `navigate_to` of the first
`on_success` entry that has that key. -/
def resolveRedirect (onSuccess : Option (List (List (String × String)))) :
    Option String :=
  match onSuccess with
  | none => none
  | some actions => actions.findSome? fun a => a.lookup "navigate_to"

/-- `executeApiAction(config, context)` with the transport abstracted:
returns the request it issued (`none` when rejected before the call) and
the `ActionResult`. -/
def executeApiAction (cfg : ActionConfig) (recordId : Option String)
    (bodyJson : String) (token : Option String)
    (http : HttpRequest → HttpResponse) : Option HttpRequest × ActionResult :=
  if isFalsyStr cfg.endpoint || isFalsyStr cfg.method then
    (none, { success := false, message := "API action missing endpoint or method" })
  else
    let m := cfg.method.getD ""
    let endpoint := substApiEndpoint (cfg.endpoint.getD "") recordId
    let req : HttpRequest :=
      { url := endpoint
        method := m
        body := if m ≠ "GET" then some bodyJson else none
        auth := token }
    let resp := http req
    if resp.ok then
      (some req,
        { success := true
          message := orFalsy cfg.success_message "Action completed successfully"
          data := resp.bodyData
          redirect_to := resolveRedirect cfg.on_success })
    else
      (some req,
        { success := false
          message := orFalsy cfg.error_message (orFalsy resp.errorDetail
            ("Request failed with status " ++ toString resp.status)) })

/-- `executeCustomAction`: the placeholder returns success — no handler
registry is consulted (none exists). -/
def executeCustomAction (cfg : ActionConfig) : ActionResult :=
  { success := true, message := orFalsy cfg.success_message "Action completed" }

/-- `executeBatchAction`: the placeholder returns success. -/
def executeBatchAction (cfg : ActionConfig) : ActionResult :=
  { success := true, message := orFalsy cfg.success_message "Batch action completed" }

/-- `ActionHandler.execute`: dispatch on `config.type`. -/
def ActionHandler.execute (cfg : ActionConfig) (recordId : Option String)
    (bodyJson : String) (token : Option String)
    (http : HttpRequest → HttpResponse) : Option HttpRequest × ActionResult :=
  if cfg.type = "api" then executeApiAction cfg recordId bodyJson token http
  else if cfg.type = "custom" then (none, executeCustomAction cfg)
  else if cfg.type = "batch" then (none, executeBatchAction cfg)
  else (none, { success := false, message := "Unknown action type: " ++ cfg.type })

/-! ## Form validation (FormRenderer in DetailRenderer.tsx)

`new RegExp(field.pattern).test(value)` is abstracted as a `regexTest`
parameter; no theorem below depends on it. -/

/-- The slice of `FormFieldConfig` (types.ts) the validation and formula
recomputation read; optional booleans are embedded as `Bool` with the
falsy default. -/
structure FormFieldConfig where
  type : String
  label : String
  required : Bool := false
  readonly : Bool := false
  disabled : Bool := false
  hidden : Bool := false
  hidden_if : Option JSExpr := none
  disabled_if : Option JSExpr := none
  formula : Option JSExpr := none
  pattern : Option String := none
  min : Option Int := none
  max : Option Int := none
  minLength : Option Nat := none
  maxLength : Option Nat := none
deriving Repr

/-- `field.minLength && typeof value === 'string' && value.length < minLength`
(`0` is falsy and skips the check). -/
def minLenBad (fld : FormFieldConfig) (value : JSValue) : Bool :=
  match fld.minLength, value with
  | some n, .str s => n != 0 && decide (s.length < n)
  | _, _ => false

def maxLenBad (fld : FormFieldConfig) (value : JSValue) : Bool :=
  match fld.maxLength, value with
  | some n, .str s => n != 0 && decide (s.length > n)
  | _, _ => false

/-- `field.min !== undefined && typeof value === 'number' && value < min`;
a NaN value compares false and passes, like the source. -/
def minBad (fld : FormFieldConfig) (value : JSValue) : Bool :=
  match fld.min, value with
  | some m, .num x => decide (x < m)
  | _, _ => false

def maxBad (fld : FormFieldConfig) (value : JSValue) : Bool :=
  match fld.max, value with
  | some m, .num x => decide (x > m)
  | _, _ => false

def patternBad (regexTest : String → String → Bool)
    (fld : FormFieldConfig) (value : JSValue) : Bool :=
  match fld.pattern, value with
  | some pat, .str s => pat != "" && !(regexTest pat s)
  | _, _ => false

/-- `validateField(key, value, field)`: the first failing check's message,
`null` when all pass. -/
def validateField (regexTest : String → String → Bool)
    (fld : FormFieldConfig) (value : JSValue) : Option String :=
  if fld.required && (value == .str "" || value == .null || value == .undefined) then
    some (fld.label ++ " is required")
  else if minLenBad fld value then
    some (fld.label ++ " must be at least " ++ toString (fld.minLength.getD 0)
      ++ " characters")
  else if maxLenBad fld value then
    some (fld.label ++ " must be at most " ++ toString (fld.maxLength.getD 0)
      ++ " characters")
  else if minBad fld value then
    some (fld.label ++ " must be at least " ++ toString (fld.min.getD 0))
  else if maxBad fld value then
    some (fld.label ++ " must be at most " ++ toString (fld.max.getD 0))
  else if patternBad regexTest fld value then
    some (fld.label ++ " format is invalid")
  else none

/-- The error collection of `handleSubmit`: every field in declaration
order, fields marked `readonly` or `disabled` skipped before validation
(`if (field.readonly || field.disabled) return;`); submission proceeds
exactly when this list is empty. -/
def collectErrors (regexTest : String → String → Bool) :
    List (String × FormFieldConfig) → JSRecord → List (String × String)
  | [], _ => []
  | (key, fld) :: rest, formData =>
      if fld.readonly || fld.disabled then collectErrors regexTest rest formData
      else
        match validateField regexTest fld (getField formData key) with
        | some e => (key, e) :: collectErrors regexTest rest formData
        | none => collectErrors regexTest rest formData

/-- `handleFieldChange(key, value)`: the record updated at `key`, then every
field with a `formula` recomputed (in declaration order) against the
updated record. -/
def handleFieldChange (globals : JSRecord)
    (fields : List (String × FormFieldConfig)) (formData : JSRecord)
    (key : String) (value : JSValue) : JSRecord :=
  let newData := setField formData key value
  fields.foldl
    (fun acc kv =>
      match kv.2.formula with
      | some f => setField acc kv.1 (evaluateFormula globals acc f)
      | none => acc)
    newData

/-! ## Derived notions used by the theorems -/

/-- The template with its `\x7bid\x7d` placeholders replaced by the
captured groups, in order: the shape a path must have to match the
template. -/
def substGroups : List Char → List (List Char) → List Char
  | '\x7b' :: 'i' :: 'd' :: '\x7d' :: ts, g :: gs => g ++ substGroups ts gs
  | '\x7b' :: 'i' :: 'd' :: '\x7d' :: ts, [] =>
      '\x7b' :: 'i' :: 'd' :: '\x7d' :: substGroups ts []
  | c :: ts, gs => c :: substGroups ts gs
  | [], _ => []
termination_by tpl _ => tpl.length

/-- Every captured group is a nonempty run of non-slash characters. -/
def wfGroups (gs : List (List Char)) : Prop :=
  ∀ g ∈ gs, g ≠ [] ∧ ∀ c ∈ g, c ≠ '/'

/-- Every present capture is a nonempty run of non-slash characters. -/
def capsWf (caps : List (Option (List Char))) : Prop :=
  ∀ g : List Char, some g ∈ caps → g ≠ [] ∧ ∀ c ∈ g, c ≠ '/'

/-- The atoms a `*`-free template compiles to: one literal atom per
character, one group per placeholder (on a template carrying a `*` this
reads the `*` as a literal and differs from `compileTemplate`). -/
def atomsOfTemplate : List Char → List RouteAtom
  | '\x7b' :: 'i' :: 'd' :: '\x7d' :: ts => .group :: atomsOfTemplate ts
  | c :: ts => .lit c :: atomsOfTemplate ts
  | [] => []
termination_by tpl => tpl.length

/-- No quantified atom. -/
def noStarAtoms (atoms : List RouteAtom) : Prop :=
  ∀ a ∈ atoms, (∀ c, a ≠ .starLit c) ∧ a ≠ .starGroup

/-- Atom-level counterpart of `substGroups`: the atoms spelled out with
the group atoms replaced by the captured groups in order (quantified
atoms, never produced by `atomsOfTemplate`, contribute nothing). -/
def substAtoms : List RouteAtom → List (List Char) → List Char
  | .lit c :: ts, gs => c :: substAtoms ts gs
  | .group :: ts, g :: gs => g ++ substAtoms ts gs
  | .group :: ts, [] =>
      '\x7b' :: 'i' :: 'd' :: '\x7d' :: substAtoms ts []
  | .starLit _ :: ts, gs => substAtoms ts gs
  | .starGroup :: ts, gs => substAtoms ts gs
  | [], _ => []

/-- What each match state guarantees about its accumulated segments: group
and iteration segments hold no slash, an iteration segment is nonempty,
and a completed last iteration is a nonempty slash-free segment. -/
def stateInv : MatchState → Prop
  | .plain => True
  | .inGroup seg => ∀ c ∈ seg, c ≠ '/'
  | .starLoop lastCap => ∀ g, lastCap = some g → g ≠ [] ∧ ∀ c ∈ g, c ≠ '/'
  | .inStarChunk seg => seg ≠ [] ∧ ∀ c ∈ seg, c ≠ '/'

/-- A transport that accepts every request. -/
def httpOkResponder : HttpRequest → HttpResponse :=
  fun _ => { ok := true, status := 200 }

/-- The spec's formula scenario: `total = quantity * price`, compiled to
`data.quantity * data.price`. -/
def totalFormula : JSExpr :=
  .mul (.field "quantity") (.field "price")

/-- The form of the formula scenario: two number fields and the computed
`total`. -/
def exampleFormFields : List (String × FormFieldConfig) :=
  [("quantity", { type := "number", label := "Quantity" }),
   ("price", { type := "number", label := "Price" }),
   ("total", { type := "number", label := "Total", readonly := true,
               formula := some totalFormula })]

/-- A required field marked readonly. -/
def requiredLockedField : FormFieldConfig :=
  { type := "text", label := "Locked", required := true, readonly := true }

/-- The spec's two-screen route example, in declaration order. -/
def exampleScreens : List (String × String) :=
  [("invoice_detail", "/modules/finance/invoices/{id}"),
   ("invoice_list", "/modules/finance/invoices")]

/-! ## Helper lemmas -/

/-- An error entry only ever comes from a field that was not skipped. -/
lemma collectErrors_lookup_none (regexTest : String → String → Bool)
    (formData : JSRecord) :
    ∀ (fields : List (String × FormFieldConfig)) (key : String),
      (∀ fld, (key, fld) ∈ fields → (fld.readonly || fld.disabled) = true) →
      (collectErrors regexTest fields formData).lookup key = none := by
  intro fields
  induction fields with
  | nil => intro key _; rfl
  | cons kv rest ih =>
      intro key hall
      obtain ⟨k', f'⟩ := kv
      by_cases hskip : (f'.readonly || f'.disabled) = true
      · simpa [collectErrors, hskip] using
          ih key fun fld hm => hall fld (List.mem_cons_of_mem _ hm)
      · have hne : k' ≠ key := by
          intro hk
          exact hskip (hall f' (hk ▸ List.mem_cons_self _ _))
        have hrest := ih key fun fld hm => hall fld (List.mem_cons_of_mem _ hm)
        cases hv : validateField regexTest f' (getField formData k') with
        | none => simpa [collectErrors, hskip, hv] using hrest
        | some e =>
            have hbeq : (key == k') = false := by
              exact beq_false_of_ne fun h => hne h.symm
            simp [collectErrors, hskip, hv, List.lookup, hbeq, hrest]

/-- `transition` succeeds exactly when the key resolves and `from` is the
current state. -/
lemma transition_true_iff (e : WorkflowEngine) (k : String) :
    (e.transition k).1 = true ↔
      ∃ t, e.findTransition k = some t ∧ t.fromState = e.currentState := by
  simp only [WorkflowEngine.transition]
  split
  · next heq => simp [heq]
  · next t heq =>
      have hcan : e.canTransition k = (t.fromState == e.currentState) := by
        simp [WorkflowEngine.canTransition, heq]
      by_cases hfrom : t.fromState = e.currentState
      · simp [hcan, hfrom, heq]
      · simp [hcan, hfrom, heq]

/-- A failing `transition` leaves the engine unchanged. -/
lemma transition_false_frame (e : WorkflowEngine) (k : String) :
    (e.transition k).1 = false → (e.transition k).2 = e := by
  simp only [WorkflowEngine.transition]
  split
  · next heq => intro _; rfl
  · next t heq =>
      by_cases hc : e.canTransition k = true
      · simp [hc]
      · simp [hc]

/-- A succeeding `transition` moves to `to`, appends it to the history and
keeps the configuration. -/
lemma transition_effect (e : WorkflowEngine) (k : String)
    (t : WorkflowTransition) (ht : e.findTransition k = some t)
    (hfrom : t.fromState = e.currentState) :
    (e.transition k).2.currentState = t.toState
    ∧ (e.transition k).2.stateHistory = e.stateHistory ++ [t.toState]
    ∧ (e.transition k).2.config = e.config := by
  have hc : e.canTransition k = true := by
    simp [WorkflowEngine.canTransition, ht, hfrom]
  simp [WorkflowEngine.transition, ht, hc]

/-- `substGroups` walks over a literal template character. -/
lemma substGroups_cons (c : Char) (ts : List Char) (gs : List (List Char))
    (hnot : ∀ ts_1 : List Char, c = '{' → ts = 'i' :: 'd' :: '}' :: ts_1 → False) :
    substGroups (c :: ts) gs = c :: substGroups ts gs := by
  refine substGroups.eq_3 gs c ts ?_ ?_
  · intro ts_1 g gs_1 hc hts _
    exact hnot ts_1 hc hts
  · intro ts_1 hc hts _
    exact hnot ts_1 hc hts

lemma atomsOfTemplate_cons (c : Char) (ts : List Char)
    (hnot : ∀ ts_1 : List Char, c = '{' → ts = 'i' :: 'd' :: '}' :: ts_1 → False) :
    atomsOfTemplate (c :: ts) = .lit c :: atomsOfTemplate ts := by
  refine atomsOfTemplate.eq_2 c ts ?_
  intro ts_1 hc hts
  exact hnot ts_1 hc hts

lemma runMatch_sound :
    ∀ (atoms : List RouteAtom) (state : MatchState) (path : List Char),
      noStarAtoms atoms →
      ∀ caps, runMatch atoms state path = some caps →
        (state = .plain →
          ∃ gs, caps = gs.map some ∧ path = substAtoms atoms gs ∧ wfGroups gs)
        ∧ (∀ seg, state = .inGroup seg → (∀ c ∈ seg, c ≠ '/') →
            ∃ g g2 gs', caps = some g :: gs'.map some
              ∧ g = seg.reverse ++ g2
              ∧ path = g2 ++ substAtoms atoms gs'
              ∧ (∀ c ∈ g2, c ≠ '/')
              ∧ (seg = [] → g2 ≠ [])
              ∧ wfGroups gs') := by
  intro atoms state path
  induction atoms, state, path using runMatch.induct with
  | case1 =>
      intro _ caps h
      rw [runMatch.eq_1] at h
      cases h
      refine ⟨fun _ => ⟨[], rfl, by simp [substAtoms], by simp [wfGroups]⟩, ?_⟩
      intro seg hseg
      exact MatchState.noConfusion hseg
  | case2 head tail =>
      intro _ caps h
      rw [runMatch.eq_2] at h
      cases h
  | case3 c tail =>
      intro _ caps h
      rw [runMatch.eq_3] at h
      cases h
  | case4 ts p ps ih =>
      intro hns caps h
      rw [runMatch.eq_4, if_pos rfl] at h
      have hns' : noStarAtoms ts := fun a ha => hns a (List.mem_cons_of_mem _ ha)
      obtain ⟨gs, hcaps, hpath, hwf⟩ := (ih hns' caps h).1 rfl
      refine ⟨fun _ => ⟨gs, hcaps, ?_, hwf⟩, ?_⟩
      · simp [substAtoms, hpath]
      · intro seg hseg
        exact MatchState.noConfusion hseg
  | case5 c ts p ps hne =>
      intro _ caps h
      rw [runMatch.eq_4, if_neg hne] at h
      cases h
  | case6 c ts ih =>
      intro hns caps h
      exact absurd rfl ((hns (.starLit c) (List.mem_cons_self _ _)).1 c)
  | case7 ts p ps r hr ih =>
      intro hns caps h
      exact absurd rfl ((hns (.starLit p) (List.mem_cons_self _ _)).1 p)
  | case8 ts p ps hnone ih1 ih2 =>
      intro hns caps h
      exact absurd rfl ((hns (.starLit p) (List.mem_cons_self _ _)).1 p)
  | case9 c ts p ps hne ih =>
      intro hns caps h
      exact absurd rfl ((hns (.starLit c) (List.mem_cons_self _ _)).1 c)
  | case10 ts path ih =>
      intro hns caps h
      rw [runMatch.eq_7] at h
      have hns' : noStarAtoms ts := fun a ha => hns a (List.mem_cons_of_mem _ ha)
      obtain ⟨g, g2, gs', hcaps, hg, hpath, hg2, hne2, hwf'⟩ :=
        (ih hns' caps h).2 [] rfl (by intro c hc; cases hc)
      have hgg2 : g = g2 := by simpa using hg
      refine ⟨fun _ => ?_, ?_⟩
      · refine ⟨g :: gs', by simpa using hcaps, ?_, ?_⟩
        · rw [hpath, hgg2]
          simp [substAtoms]
        · intro g' hg'
          rcases List.mem_cons.mp hg' with hgl | hgr
          · subst hgl
            exact ⟨by rw [hgg2]; exact hne2 rfl, by rw [hgg2]; exact hg2⟩
          · exact hwf' g' hgr
      · intro seg hseg
        exact MatchState.noConfusion hseg
  | case11 ts path ih =>
      intro hns caps h
      exact absurd rfl (hns .starGroup (List.mem_cons_self _ _)).2
  | case12 ts =>
      intro _ caps h
      rw [runMatch.eq_9, if_pos rfl] at h
      cases h
  | case13 ts seg hne ih =>
      intro hns caps h
      rw [runMatch.eq_9, if_neg hne] at h
      cases hm : runMatch ts .plain [] with
      | none => rw [hm] at h; cases h
      | some caps0 =>
          rw [hm] at h
          cases h
          obtain ⟨gs, hcaps0, hpath, hwf⟩ := (ih hns caps0 hm).1 rfl
          refine ⟨fun hmode => MatchState.noConfusion hmode, ?_⟩
          intro seg' hseg hsegwf
          cases hseg
          refine ⟨seg.reverse, [], gs, by rw [hcaps0], (List.append_nil _).symm,
            (by simpa using hpath), (fun c hc => absurd hc (List.not_mem_nil c)),
            fun hsegnil => absurd hsegnil hne, hwf⟩
  | case14 ts ps =>
      intro _ caps h
      rw [runMatch.eq_10, if_pos rfl, if_pos rfl] at h
      cases h
  | case15 ts seg ps hne ih =>
      intro hns caps h
      rw [runMatch.eq_10, if_pos rfl, if_neg hne] at h
      cases hm : runMatch ts .plain ('/' :: ps) with
      | none => rw [hm] at h; cases h
      | some caps0 =>
          rw [hm] at h
          cases h
          obtain ⟨gs, hcaps0, hpath, hwf⟩ := (ih hns caps0 hm).1 rfl
          refine ⟨fun hmode => MatchState.noConfusion hmode, ?_⟩
          intro seg' hseg hsegwf
          cases hseg
          refine ⟨seg.reverse, [], gs, by rw [hcaps0], (List.append_nil _).symm,
            (by simpa using hpath), (fun c hc => absurd hc (List.not_mem_nil c)),
            fun hsegnil => absurd hsegnil hne, hwf⟩
  | case16 ts seg c ps hc r hr ih =>
      intro hns caps h
      rw [runMatch.eq_10, if_neg hc, hr] at h
      cases h
      refine ⟨fun hmode => MatchState.noConfusion hmode, ?_⟩
      intro seg' hseg hsegwf
      cases hseg
      have hsegwf' : ∀ x ∈ c :: seg, x ≠ '/' := by
        intro x hx
        rcases List.mem_cons.mp hx with hxc | hxs
        · subst hxc; exact hc
        · exact hsegwf x hxs
      obtain ⟨g, g2, gs', hcaps, hg, hpath, hg2, hne2, hwf'⟩ :=
        (ih hns r hr).2 (c :: seg) rfl hsegwf'
      refine ⟨g, c :: g2, gs', hcaps, ?_, ?_, ?_, ?_, hwf'⟩
      · rw [hg, List.reverse_cons, List.append_assoc]
        rfl
      · rw [hpath]
        rfl
      · intro x hx
        rcases List.mem_cons.mp hx with hxc | hxs
        · subst hxc; exact hc
        · exact hg2 x hxs
      · intro _
        simp
  | case17 ts c ps hc hnone ih =>
      intro _ caps h
      rw [runMatch.eq_10, if_neg hc, hnone, if_pos rfl] at h
      cases h
  | case18 ts seg c ps hc hnone hne ih1 ih2 =>
      intro hns caps h
      rw [runMatch.eq_10, if_neg hc, hnone, if_neg hne] at h
      cases hm : runMatch ts .plain (c :: ps) with
      | none => rw [hm] at h; cases h
      | some caps0 =>
          rw [hm] at h
          cases h
          obtain ⟨gs, hcaps0, hpath, hwf⟩ := (ih2 hns caps0 hm).1 rfl
          refine ⟨fun hmode => MatchState.noConfusion hmode, ?_⟩
          intro seg' hseg hsegwf
          cases hseg
          refine ⟨seg.reverse, [], gs, by rw [hcaps0], (List.append_nil _).symm,
            (by simpa using hpath), (fun x hx => absurd hx (List.not_mem_nil x)),
            fun hsegnil => absurd hsegnil hne, hwf⟩
  | case19 ts lastCap ih =>
      intro _ caps _
      exact ⟨fun hmode => MatchState.noConfusion hmode,
        fun seg hseg => MatchState.noConfusion hseg⟩
  | case20 ts lastCap ps ih =>
      intro _ caps _
      exact ⟨fun hmode => MatchState.noConfusion hmode,
        fun seg hseg => MatchState.noConfusion hseg⟩
  | case21 ts lastCap c ps hc r hr ih =>
      intro _ caps _
      exact ⟨fun hmode => MatchState.noConfusion hmode,
        fun seg hseg => MatchState.noConfusion hseg⟩
  | case22 ts lastCap c ps hc hnone ih1 ih2 =>
      intro _ caps _
      exact ⟨fun hmode => MatchState.noConfusion hmode,
        fun seg hseg => MatchState.noConfusion hseg⟩
  | case23 ts seg ih =>
      intro _ caps _
      exact ⟨fun hmode => MatchState.noConfusion hmode,
        fun seg' hseg => MatchState.noConfusion hseg⟩
  | case24 ts seg ps ih =>
      intro _ caps _
      exact ⟨fun hmode => MatchState.noConfusion hmode,
        fun seg' hseg => MatchState.noConfusion hseg⟩
  | case25 ts seg c ps hc r hr ih =>
      intro _ caps _
      exact ⟨fun hmode => MatchState.noConfusion hmode,
        fun seg' hseg => MatchState.noConfusion hseg⟩
  | case26 ts seg c ps hc hnone ih1 ih2 =>
      intro _ caps _
      exact ⟨fun hmode => MatchState.noConfusion hmode,
        fun seg' hseg => MatchState.noConfusion hseg⟩

lemma capsWf_cons_some (g : List Char) (caps : List (Option (List Char)))
    (hg : g ≠ [] ∧ ∀ c ∈ g, c ≠ '/') (h : capsWf caps) :
    capsWf (some g :: caps) := by
  intro g' hg'
  rcases List.mem_cons.mp hg' with heq | hmem
  · cases heq
    exact hg
  · exact h g' hmem

lemma capsWf_cons_none (caps : List (Option (List Char))) (h : capsWf caps) :
    capsWf ((none : Option (List Char)) :: caps) := by
  intro g' hg'
  rcases List.mem_cons.mp hg' with heq | hmem
  · cases heq
  · exact h g' hmem

lemma runMatch_caps_wf :
    ∀ (atoms : List RouteAtom) (state : MatchState) (path : List Char),
      stateInv state →
      ∀ caps, runMatch atoms state path = some caps → capsWf caps := by
  intro atoms state path
  induction atoms, state, path using runMatch.induct with
  | case1 =>
      intro _ caps h
      rw [runMatch.eq_1] at h
      cases h
      intro g hg
      cases hg
  | case2 head tail =>
      intro _ caps h
      rw [runMatch.eq_2] at h
      cases h
  | case3 c tail =>
      intro _ caps h
      rw [runMatch.eq_3] at h
      cases h
  | case4 ts p ps ih =>
      intro _ caps h
      rw [runMatch.eq_4, if_pos rfl] at h
      exact ih trivial caps h
  | case5 c ts p ps hne =>
      intro _ caps h
      rw [runMatch.eq_4, if_neg hne] at h
      cases h
  | case6 c ts ih =>
      intro _ caps h
      rw [runMatch.eq_5] at h
      exact ih trivial caps h
  | case7 ts p ps r hr ih =>
      intro _ caps h
      rw [runMatch.eq_6, if_pos rfl, hr] at h
      cases h
      exact ih trivial r hr
  | case8 ts p ps hnone ih1 ih2 =>
      intro _ caps h
      rw [runMatch.eq_6, if_pos rfl, hnone] at h
      exact ih2 trivial caps h
  | case9 c ts p ps hne ih =>
      intro _ caps h
      rw [runMatch.eq_6, if_neg hne] at h
      exact ih trivial caps h
  | case10 ts path ih =>
      intro _ caps h
      rw [runMatch.eq_7] at h
      exact ih (by intro c hc; cases hc) caps h
  | case11 ts path ih =>
      intro _ caps h
      rw [runMatch.eq_8] at h
      refine ih ?_ caps h
      intro g hg
      cases hg
  | case12 ts =>
      intro _ caps h
      rw [runMatch.eq_9, if_pos rfl] at h
      cases h
  | case13 ts seg hne ih =>
      intro hinv caps h
      rw [runMatch.eq_9, if_neg hne] at h
      cases hm : runMatch ts .plain [] with
      | none => rw [hm] at h; cases h
      | some caps0 =>
          rw [hm] at h
          cases h
          refine capsWf_cons_some _ _ ⟨by simpa using hne, ?_⟩ (ih trivial caps0 hm)
          intro c hc
          exact hinv c (List.mem_reverse.mp hc)
  | case14 ts ps =>
      intro _ caps h
      rw [runMatch.eq_10, if_pos rfl, if_pos rfl] at h
      cases h
  | case15 ts seg ps hne ih =>
      intro hinv caps h
      rw [runMatch.eq_10, if_pos rfl, if_neg hne] at h
      cases hm : runMatch ts .plain ('/' :: ps) with
      | none => rw [hm] at h; cases h
      | some caps0 =>
          rw [hm] at h
          cases h
          refine capsWf_cons_some _ _ ⟨by simpa using hne, ?_⟩ (ih trivial caps0 hm)
          intro c hc
          exact hinv c (List.mem_reverse.mp hc)
  | case16 ts seg c ps hc r hr ih =>
      intro hinv caps h
      rw [runMatch.eq_10, if_neg hc, hr] at h
      cases h
      refine ih ?_ r hr
      intro x hx
      rcases List.mem_cons.mp hx with hxc | hxs
      · subst hxc; exact hc
      · exact hinv x hxs
  | case17 ts c ps hc hnone ih =>
      intro _ caps h
      rw [runMatch.eq_10, if_neg hc, hnone, if_pos rfl] at h
      cases h
  | case18 ts seg c ps hc hnone hne ih1 ih2 =>
      intro hinv caps h
      rw [runMatch.eq_10, if_neg hc, hnone, if_neg hne] at h
      cases hm : runMatch ts .plain (c :: ps) with
      | none => rw [hm] at h; cases h
      | some caps0 =>
          rw [hm] at h
          cases h
          refine capsWf_cons_some _ _ ⟨by simpa using hne, ?_⟩ (ih2 trivial caps0 hm)
          intro x hx
          exact hinv x (List.mem_reverse.mp hx)
  | case19 ts lastCap ih =>
      intro hinv caps h
      rw [runMatch.eq_11] at h
      cases hm : runMatch ts .plain [] with
      | none => rw [hm] at h; cases h
      | some caps0 =>
          rw [hm] at h
          cases h
          cases hcap : lastCap with
          | none => exact capsWf_cons_none _ (ih trivial caps0 hm)
          | some l =>
              obtain ⟨hl1, hl2⟩ := hinv l hcap
              refine capsWf_cons_some _ _ ⟨by simpa using hl1, ?_⟩ (ih trivial caps0 hm)
              intro x hx
              exact hl2 x (List.mem_reverse.mp hx)
  | case20 ts lastCap ps ih =>
      intro hinv caps h
      rw [runMatch.eq_12, if_pos rfl] at h
      cases hm : runMatch ts .plain ('/' :: ps) with
      | none => rw [hm] at h; cases h
      | some caps0 =>
          rw [hm] at h
          cases h
          cases hcap : lastCap with
          | none => exact capsWf_cons_none _ (ih trivial caps0 hm)
          | some l =>
              obtain ⟨hl1, hl2⟩ := hinv l hcap
              refine capsWf_cons_some _ _ ⟨by simpa using hl1, ?_⟩ (ih trivial caps0 hm)
              intro x hx
              exact hl2 x (List.mem_reverse.mp hx)
  | case21 ts lastCap c ps hc r hr ih =>
      intro _ caps h
      rw [runMatch.eq_12, if_neg hc, hr] at h
      cases h
      refine ih ?_ r hr
      refine ⟨by simp, ?_⟩
      intro x hx
      rcases List.mem_cons.mp hx with hxc | hxs
      · subst hxc; exact hc
      · cases hxs
  | case22 ts lastCap c ps hc hnone ih1 ih2 =>
      intro hinv caps h
      rw [runMatch.eq_12, if_neg hc, hnone] at h
      cases hm : runMatch ts .plain (c :: ps) with
      | none => rw [hm] at h; cases h
      | some caps0 =>
          rw [hm] at h
          cases h
          cases hcap : lastCap with
          | none => exact capsWf_cons_none _ (ih2 trivial caps0 hm)
          | some l =>
              obtain ⟨hl1, hl2⟩ := hinv l hcap
              refine capsWf_cons_some _ _ ⟨by simpa using hl1, ?_⟩ (ih2 trivial caps0 hm)
              intro x hx
              exact hl2 x (List.mem_reverse.mp hx)
  | case23 ts seg ih =>
      intro hinv caps h
      rw [runMatch.eq_13] at h
      refine ih ?_ caps h
      intro g hg
      cases hg
      exact hinv
  | case24 ts seg ps ih =>
      intro hinv caps h
      rw [runMatch.eq_14, if_pos rfl] at h
      refine ih ?_ caps h
      intro g hg
      cases hg
      exact hinv
  | case25 ts seg c ps hc r hr ih =>
      intro hinv caps h
      rw [runMatch.eq_14, if_neg hc, hr] at h
      cases h
      refine ih ?_ r hr
      refine ⟨by simp, ?_⟩
      intro x hx
      rcases List.mem_cons.mp hx with hxc | hxs
      · subst hxc; exact hc
      · exact hinv.2 x hxs
  | case26 ts seg c ps hc hnone ih1 ih2 =>
      intro hinv caps h
      rw [runMatch.eq_14, if_neg hc, hnone] at h
      refine ih2 ?_ caps h
      intro g hg
      cases hg
      exact hinv

lemma compileAux_noStar :
    ∀ (tpl : List Char) (acc : List RouteAtom), '*' ∉ tpl →
      compileAux tpl acc = some (acc.reverse ++ atomsOfTemplate tpl) := by
  intro tpl acc
  induction tpl, acc using compileAux.induct with
  | case1 acc =>
      intro _
      rw [compileAux.eq_1]
      simp [atomsOfTemplate]
  | case2 rest acc ih =>
      intro hstar
      rw [compileAux.eq_2]
      rw [ih (by simp at hstar; exact hstar)]
      rw [atomsOfTemplate.eq_1]
      simp
  | case3 rest c acc' ih =>
      intro hstar
      simp at hstar
  | case4 rest acc' ih =>
      intro hstar
      simp at hstar
  | case5 rest acc hnot1 hnot2 =>
      intro hstar
      simp at hstar
  | case6 c rest acc hnot hnotstar ih =>
      intro hstar
      rw [compileAux.eq_6 acc c rest hnot hnotstar]
      rw [ih (by simp at hstar; exact hstar.2)]
      rw [atomsOfTemplate_cons c rest hnot]
      simp

lemma atomsOfTemplate_noStar :
    ∀ tpl : List Char, noStarAtoms (atomsOfTemplate tpl) := by
  intro tpl
  induction tpl using atomsOfTemplate.induct with
  | case1 ts ih =>
      rw [atomsOfTemplate.eq_1]
      intro a ha
      rcases List.mem_cons.mp ha with heq | hmem
      · subst heq
        exact ⟨fun c hc => RouteAtom.noConfusion hc, fun hc => RouteAtom.noConfusion hc⟩
      · exact ih a hmem
  | case2 c ts hnot ih =>
      rw [atomsOfTemplate_cons c ts hnot]
      intro a ha
      rcases List.mem_cons.mp ha with heq | hmem
      · subst heq
        exact ⟨fun c' hc => RouteAtom.noConfusion hc, fun hc => RouteAtom.noConfusion hc⟩
      · exact ih a hmem
  | case3 =>
      intro a ha
      rw [atomsOfTemplate.eq_3] at ha
      cases ha

lemma substAtoms_atomsOf :
    ∀ (tpl : List Char) (gs : List (List Char)),
      substAtoms (atomsOfTemplate tpl) gs = substGroups tpl gs := by
  intro tpl
  induction tpl using atomsOfTemplate.induct with
  | case1 ts ih =>
      intro gs
      rw [atomsOfTemplate.eq_1]
      cases gs with
      | nil => rw [substGroups.eq_2]; simp [substAtoms, ih]
      | cons g gs' => rw [substGroups.eq_1]; simp [substAtoms, ih]
  | case2 c ts hnot ih =>
      intro gs
      rw [atomsOfTemplate_cons c ts hnot, substGroups_cons c ts gs hnot]
      simp [substAtoms, ih]
  | case3 =>
      intro gs
      rw [atomsOfTemplate.eq_3, substGroups.eq_4]
      rfl

lemma stripTrailingSlash_concat (s : List Char) :
    stripTrailingSlash (s ++ ['/']) = s := by
  unfold stripTrailingSlash
  rw [if_pos (List.getLast?_concat s), List.dropLast_concat]

lemma stripTrailingSlash_of_ne (s : List Char) (h : s.getLast? ≠ some '/') :
    stripTrailingSlash s = s :=
  if_neg h

lemma matchScreenPath_recordId_wf (tpl cur : String) (r : String)
    (h : matchScreenPath tpl cur = .matched (some r)) :
    r ≠ "" ∧ ∀ c ∈ r.data, c ≠ '/' := by
  unfold matchScreenPath at h
  by_cases htpl : tpl = ""
  · rw [if_pos htpl] at h
    cases h
  · rw [if_neg htpl] at h
    cases hcp : compileTemplate (stripTrailingSlash tpl.data) with
    | none => rw [hcp] at h; cases h
    | some atoms =>
        rw [hcp] at h
        dsimp only at h
        cases hm : runMatch atoms .plain (stripTrailingSlash cur.data) with
        | none => rw [hm] at h; cases h
        | some caps =>
            rw [hm] at h
            dsimp only at h
            cases hh : caps.head? with
            | none => rw [hh] at h; cases h
            | some cap =>
                rw [hh] at h
                cases cap with
                | none => dsimp only at h; cases h
                | some g =>
                    dsimp only at h
                    by_cases hg : g = []
                    · rw [if_pos hg] at h
                      cases h
                    · rw [if_neg hg] at h
                      have hr : r = String.mk g := by
                        cases h
                        rfl
                      have hmem : some g ∈ caps := by
                        cases caps with
                        | nil => cases hh
                        | cons a t =>
                            have : a = some g := by simpa using hh
                            exact this ▸ List.mem_cons_self a t
                      have hwf := runMatch_caps_wf atoms .plain
                        (stripTrailingSlash cur.data) trivial caps hm g hmem
                      constructor
                      · intro h0
                        apply hg
                        have : r.data = [] := by rw [h0]
                        rw [hr] at this
                        exact this
                      · intro c hc
                        exact hwf.2 c (by rw [hr] at hc; exact hc)

lemma matchScreenPath_tpl_slash (tpl cur : String) (h1 : tpl ≠ "")
    (h2 : tpl.data.getLast? ≠ some '/') :
    matchScreenPath (tpl ++ "/") cur = matchScreenPath tpl cur := by
  have hdata : (tpl ++ "/").data = tpl.data ++ ['/'] := rfl
  have hne : tpl ++ "/" ≠ "" := by
    intro h0
    have : (tpl ++ "/").data = [] := by rw [h0]
    rw [hdata] at this
    simp at this
  unfold matchScreenPath
  rw [if_neg hne, if_neg h1, hdata, stripTrailingSlash_concat,
    stripTrailingSlash_of_ne tpl.data h2]

lemma matchScreenPath_path_slash (tpl cur : String)
    (h : cur.data.getLast? ≠ some '/') :
    matchScreenPath tpl (cur ++ "/") = matchScreenPath tpl cur := by
  have hdata : (cur ++ "/").data = cur.data ++ ['/'] := rfl
  unfold matchScreenPath
  by_cases htpl : tpl = ""
  · rw [if_pos htpl, if_pos htpl]
  · rw [if_neg htpl, if_neg htpl, hdata, stripTrailingSlash_concat,
      stripTrailingSlash_of_ne cur.data h]

lemma resolveScreen_first (k p : String) (rest : List (String × String))
    (cur : String) (rid : Option String)
    (h : matchScreenPath p cur = .matched rid) :
    resolveScreen ((k, p) :: rest) cur = .resolved k rid := by
  simp [resolveScreen, h]

/-! ## Claim theorems -/

/-- C1: the claim demands fail-closed on an absent authoritative state —
no legal transitions, edit and delete denied, never a fallback to
`initial_state`. The code does the opposite everywhere the state is
derived: the engine constructor starts at `initial_state`; the page derives
`currentWorkflowState` as `status || initial_state` and its edit gate
defaults open (`?? true`); the `DetailRenderer` prop falls back to the
literal `"draft"`; and the freshly constructed engine reports the `submit`
transition as available and allows edit and delete. -/
theorem workflow_missing_state_defaults_open :
    (WorkflowEngine.fromConfig exampleWorkflow).currentState =
      exampleWorkflow.initial_state
    ∧ currentWorkflowState none exampleWorkflow = "draft"
    ∧ canEditBasedOnWorkflow exampleWorkflow
        (currentWorkflowState none exampleWorkflow) = true
    ∧ canEditBasedOnWorkflow { exampleWorkflow with states := [] } "draft" = true
    ∧ detailWorkflowStateProp none = "draft"
    ∧ (WorkflowEngine.fromConfig exampleWorkflow).getAvailableTransitions =
        [("submit", submitTransition)]
    ∧ (WorkflowEngine.fromConfig exampleWorkflow).canEdit = true
    ∧ (WorkflowEngine.fromConfig exampleWorkflow).canDelete = true := by
  exact ⟨rfl, rfl, rfl, rfl, rfl, rfl, rfl, rfl⟩

/-- C2: the claim demands a `Forbidden` result when the caller holds none
of the transition's permissions. `canTransition` and `transition` take no
caller permissions at all and check only the `from` state: on the spec's
own draft/approved example, whose `submit` transition demands `approve`,
the transition is reported allowed and performed — no permission check
exists in the evaluation. -/
theorem transition_ignores_permissions :
    submitTransition.permissions = some ["approve"]
    ∧ (WorkflowEngine.fromConfig exampleWorkflow).canTransition "submit" = true
    ∧ ((WorkflowEngine.fromConfig exampleWorkflow).transition "submit").1 = true
    ∧ ((WorkflowEngine.fromConfig exampleWorkflow).transition "submit").2.currentState
        = "approved" := by
  exact ⟨rfl, rfl, rfl, rfl⟩

/-- C3: the claim says the engine is a pure function of
(definition, current state name) holding no mutable internal state. The
class holds `currentState` and `stateHistory`: calling `transition` changes
both, so `canEdit` flips from `true` to `false` across two calls with the
identical definition and no new authoritative state supplied, and
`getHistory` records the prior transition history. -/
theorem engine_state_mutates_across_calls :
    (WorkflowEngine.fromConfig exampleWorkflow).canEdit = true
    ∧ ((WorkflowEngine.fromConfig exampleWorkflow).transition "submit").2.canEdit
        = false
    ∧ ((WorkflowEngine.fromConfig exampleWorkflow).transition "submit").2.config
        = (WorkflowEngine.fromConfig exampleWorkflow).config
    ∧ (WorkflowEngine.fromConfig exampleWorkflow).getHistory = ["draft"]
    ∧ ((WorkflowEngine.fromConfig exampleWorkflow).transition "submit").2.getHistory
        = ["draft", "approved"]
    ∧ ((WorkflowEngine.fromConfig exampleWorkflow).transition "submit").2
        ≠ WorkflowEngine.fromConfig exampleWorkflow := by
  refine ⟨rfl, rfl, rfl, rfl, rfl, ?_⟩
  decide

/-- C4: the claim says expression evaluation reads only the supplied
record. The source compiles the raw string with
`new Function('data', 'return ' + expression)`, so the compiled expression
also sees the global scope: the same expression on the same record
evaluates differently under two global objects. -/
theorem expression_eval_reads_global_scope :
    evaluateCondition [("featureFlag", .bool true)] [("amount", .num 7)]
      (.global "featureFlag") = true
    ∧ evaluateCondition [] [("amount", .num 7)] (.global "featureFlag") = false
    ∧ evaluateFormula [("limit", .num 9)] [("amount", .num 7)] (.global "limit")
        = .num 9 := by
  exact ⟨rfl, rfl, rfl⟩

/-- C5 counterexample: with `price = 5` and `quantity` absent, the formula
`data.quantity * data.price` evaluates to NaN (`undefined` coerces to NaN
under `*`), not to the claimed `0`. -/
theorem formula_missing_operand_not_zero :
    evaluateFormula [] [("price", .num 5)] totalFormula = .nan
    ∧ JSValue.nan ≠ JSValue.num 0 := by
  exact ⟨rfl, by decide⟩

/-- C5 as amended: `total = quantity * price` evaluates to 20 for
`quantity = 4, price = 5`; a missing operand yields NaN, not 0 (evaluation
is total — nothing throws); and `handleFieldChange` recomputes every
formula field against the updated record on each change, so `total`
becomes 20 the moment `price` is set to 5 beside `quantity = 4`. -/
theorem formula_semantics_amended :
    evaluateFormula [] [("quantity", .num 4), ("price", .num 5)] totalFormula
      = .num 20
    ∧ evaluateFormula [] [("price", .num 5)] totalFormula = .nan
    ∧ evaluateFormula [] [("quantity", .num 4)] totalFormula = .nan
    ∧ evaluateFormula [] [] totalFormula = .nan
    ∧ getField (handleFieldChange [] exampleFormFields [("quantity", .num 4)]
        "price" (.num 5)) "total" = .num 20
    ∧ getField (handleFieldChange [] exampleFormFields
        [("quantity", .num 4), ("price", .num 5), ("total", .num 20)]
        "quantity" (.num 6)) "total" = .num 30 := by
  exact ⟨rfl, rfl, rfl, rfl, rfl, rfl⟩

/-- C7: the claim demands a `MissingRecordId` failure, without issuing the
call, for an `api` action whose endpoint template needs `\x7bid\x7d` when
no record id is supplied. `executeApiAction` has no such check: with no
`recordId` it issues the HTTP request with the placeholder left verbatim
in the URL and reports the transport's outcome as success; when an id is
supplied, the placeholder is substituted before the call. -/
theorem api_action_issues_unsubstituted_placeholder :
    (executeApiAction
        { type := "api", method := some "POST",
          endpoint := some "/api/v1/invoices/{id}/approve" }
        none "{}" none httpOkResponder).1 =
      some { url := "/api/v1/invoices/{id}/approve", method := "POST",
             body := some "{}", auth := none }
    ∧ (executeApiAction
        { type := "api", method := some "POST",
          endpoint := some "/api/v1/invoices/{id}/approve" }
        none "{}" none httpOkResponder).2.success = true
    ∧ substApiEndpoint "/api/v1/invoices/{id}/approve" (some "42")
        = "/api/v1/invoices/42/approve" := by
  refine ⟨rfl, rfl, ?_⟩
  decide

/-- C8: the claim demands a structured `NotImplemented` result
(`success = false`) for a `custom` or `batch` action with no registered
handler. No handler registry exists: for every transport and every
configuration the placeholders report `success = true`, with the default
completion messages when none is configured. -/
theorem custom_batch_actions_report_success :
    (∀ http : HttpRequest → HttpResponse, ∀ cfg : ActionConfig,
      cfg.type = "custom" →
        (ActionHandler.execute cfg none "{}" none http).2.success = true)
    ∧ (∀ http : HttpRequest → HttpResponse, ∀ cfg : ActionConfig,
      cfg.type = "batch" →
        (ActionHandler.execute cfg none "{}" none http).2.success = true)
    ∧ (ActionHandler.execute { type := "custom" } none "{}" none
        httpOkResponder).2 = { success := true, message := "Action completed" }
    ∧ (ActionHandler.execute { type := "batch" } none "{}" none
        httpOkResponder).2 = { success := true, message := "Batch action completed" }
    := by
  refine ⟨?_, ?_, rfl, rfl⟩
  · intro http cfg h
    simp [ActionHandler.execute, h, executeCustomAction]
  · intro http cfg h
    simp [ActionHandler.execute, h, executeBatchAction]

/-- C9: `transition(key)` returns `true` exactly when the named transition
exists and its `from` equals the current state; in that case the engine's
new current state is that transition's `to`, appended to the history, with
the configuration untouched; when it returns `false` the engine is left
entirely unchanged. -/
theorem transition_characterization :
    (∀ (e : WorkflowEngine) (k : String),
      ((e.transition k).1 = true ↔
        ∃ t, e.findTransition k = some t ∧ t.fromState = e.currentState)
      ∧ (∀ t, e.findTransition k = some t → t.fromState = e.currentState →
          (e.transition k).2.currentState = t.toState
          ∧ (e.transition k).2.stateHistory = e.stateHistory ++ [t.toState]
          ∧ (e.transition k).2.config = e.config)
      ∧ ((e.transition k).1 = false → (e.transition k).2 = e))
    ∧ ((WorkflowEngine.fromConfig exampleWorkflow).transition "submit").1 = true
    ∧ ((WorkflowEngine.fromConfig exampleWorkflow).transition "submit").2.stateHistory
        = ["draft", "approved"]
    ∧ ((WorkflowEngine.fromConfig exampleWorkflow).transition "missing")
        = (false, WorkflowEngine.fromConfig exampleWorkflow)
    ∧ (((WorkflowEngine.fromConfig exampleWorkflow).transition "submit").2.transition
        "submit").1 = false := by
  refine ⟨?_, rfl, rfl, rfl, rfl⟩
  intro e k
  refine ⟨transition_true_iff e k, ?_, transition_false_frame e k⟩
  intro t ht hfrom
  exact transition_effect e k t ht hfrom

/-- C10: `handleSubmit` skips every field marked `readonly` or `disabled`
before validating, so no such field ever contributes a validation error —
in particular a required readonly field whose value is missing (which
`validateField` by itself would reject) produces no error and cannot block
submission. -/
theorem submit_skips_readonly_disabled_fields :
    (∀ (regexTest : String → String → Bool)
        (fields : List (String × FormFieldConfig)) (formData : JSRecord)
        (key : String),
      (∀ fld, (key, fld) ∈ fields → (fld.readonly || fld.disabled) = true) →
      (collectErrors regexTest fields formData).lookup key = none)
    ∧ validateField (fun _ _ => false) requiredLockedField .undefined
        = some "Locked is required"
    ∧ collectErrors (fun _ _ => false) [("locked", requiredLockedField)] [] = []
    ∧ collectErrors (fun _ _ => false)
        [("locked", requiredLockedField),
         ("note", { type := "text", label := "Note", required := true,
                    disabled := true })] [] = [] := by
  refine ⟨?_, rfl, rfl, rfl⟩
  intro regexTest fields formData key hall
  exact collectErrors_lookup_none regexTest formData fields key hall

/-- C6 counterexample: the template `/ab*` contains no placeholder, so the
claim makes it match only its own literal text; but the source leaves the
`*` unescaped, the compiled regex is `^\\/ab*$`, and the template matches
both `/a` and `/abbb` — neither equal to the template. -/
theorem route_star_template_matches_nonliterally :
    matchScreenPath "/ab*" "/a" = .matched none
    ∧ matchScreenPath "/ab*" "/abbb" = .matched none
    ∧ ("/ab*" : String) ≠ "/a"
    ∧ ("/ab*" : String) ≠ "/abbb" := by
  refine ⟨?_, ?_, by decide, by decide⟩
  · simp [matchScreenPath, compileTemplate, compileAux, runMatch, stripTrailingSlash]
  · simp [matchScreenPath, compileTemplate, compileAux, runMatch, stripTrailingSlash]

/-- C6 as amended: for templates containing no `*`, route matching is
literal except for the `\x7bid\x7d` placeholders — the compiled atoms are
exactly one literal per character and one capture group per placeholder,
and every successful match decomposes the path as the template with each
placeholder replaced by a nonempty non-slash capture; a `*` in a template
instead acts as a regex quantifier (see the counterexample) or, with
nothing to quantify, makes the RegExp constructor throw, aborting
resolution. Unconditionally: a captured `recordId` is never empty and
never spans a `/`, matching is case-sensitive (the `/Modules` instance)
and insensitive to one trailing slash on either side, the spec's two
screens resolve as stated with an extra path segment matching nothing,
and the first declared matching screen wins. -/
theorem route_resolution_star_free :
    resolveScreen exampleScreens "/modules/finance/invoices/42"
      = .resolved "invoice_detail" (some "42")
    ∧ resolveScreen exampleScreens "/modules/finance/invoices"
      = .resolved "invoice_list" none
    ∧ matchScreenPath "/modules/finance/invoices/{id}"
        "/modules/finance/invoices/42/edit" = .noMatch
    ∧ matchScreenPath "/Modules/finance/invoices"
        "/modules/finance/invoices" = .noMatch
    ∧ matchScreenPath "/modules/finance/invoices/{id}"
        "/modules/finance/invoices/42/" = .matched (some "42")
    ∧ matchScreenPath "/x{id}*" "/xabc" = .matched (some "abc")
    ∧ matchScreenPath "/x{id}*" "/x" = .matched none
    ∧ matchScreenPath "*a" "/a" = .thrown
    ∧ (∀ tpl : List Char, '*' ∉ tpl →
        compileTemplate tpl = some (atomsOfTemplate tpl))
    ∧ (∀ (tpl path : List Char) (caps : List (Option (List Char))), '*' ∉ tpl →
        runMatch (atomsOfTemplate tpl) .plain path = some caps →
        ∃ gs, caps = gs.map some ∧ path = substGroups tpl gs ∧ wfGroups gs)
    ∧ (∀ tpl cur r, matchScreenPath tpl cur = .matched (some r) →
        r ≠ "" ∧ ∀ c ∈ r.data, c ≠ '/')
    ∧ (∀ tpl cur, tpl ≠ "" → tpl.data.getLast? ≠ some '/' →
        matchScreenPath (tpl ++ "/") cur = matchScreenPath tpl cur)
    ∧ (∀ tpl cur, cur.data.getLast? ≠ some '/' →
        matchScreenPath tpl (cur ++ "/") = matchScreenPath tpl cur)
    ∧ (∀ k p rest cur rid, matchScreenPath p cur = .matched rid →
        resolveScreen ((k, p) :: rest) cur = .resolved k rid) := by
  refine ⟨?_, ?_, ?_, ?_, ?_, ?_, ?_, ?_, ?_, ?_, ?_, ?_, ?_, ?_⟩
  · simp [resolveScreen, matchScreenPath, compileTemplate, compileAux, runMatch,
      stripTrailingSlash, exampleScreens]
  · simp [resolveScreen, matchScreenPath, compileTemplate, compileAux, runMatch,
      stripTrailingSlash, exampleScreens]
  · simp [matchScreenPath, compileTemplate, compileAux, runMatch, stripTrailingSlash]
  · simp [matchScreenPath, compileTemplate, compileAux, runMatch, stripTrailingSlash]
  · simp [matchScreenPath, compileTemplate, compileAux, runMatch, stripTrailingSlash]
  · simp [matchScreenPath, compileTemplate, compileAux, runMatch, stripTrailingSlash]
  · simp [matchScreenPath, compileTemplate, compileAux, runMatch, stripTrailingSlash]
  · simp [matchScreenPath, compileTemplate, compileAux, stripTrailingSlash]
  · intro tpl hstar
    exact compileAux_noStar tpl [] hstar
  · intro tpl path caps hstar hm
    obtain ⟨gs, hcaps, hpath, hwf⟩ :=
      (runMatch_sound (atomsOfTemplate tpl) .plain path
        (atomsOfTemplate_noStar tpl) caps hm).1 rfl
    exact ⟨gs, hcaps, by rw [hpath, substAtoms_atomsOf], hwf⟩
  · intro tpl cur r h
    exact matchScreenPath_recordId_wf tpl cur r h
  · intro tpl cur h1 h2
    exact matchScreenPath_tpl_slash tpl cur h1 h2
  · intro tpl cur h
    exact matchScreenPath_path_slash tpl cur h
  · intro k p rest cur rid h
    exact resolveScreen_first k p rest cur rid h

end Tera
